import Mathlib

/-!
Verification development for the PiPedal real-time audio engine
(`src/AlsaDriver.cpp`).  The development shallowly embeds:

* the MIDI byte-stream decoder (`AlsaMidiDeviceImpl::ProcessInputBuffer`,
  `GetDataLength`, `GetSystemCommonLength`, `MidiPut`, `FlushSysex`);
* the per-sample PCM codec functions (`CopyCapture*` / `CopyPlayback*`),
  with IEEE-754 float arithmetic modelled as exact rational arithmetic
  (all decode scale constants are exact powers of two in binary32; the
  encode scale constants are modelled by their written integer values);
* the periods negotiation fragment of `AlsaConfigureStream`;
* the channel-iteration structure of `CopyPlaybackFloatLe/Be`.

Machine integers are modelled as `Nat`/`Int`; C casts that truncate or
wrap are explicit (`truncToZero`, `wrap16`, `wrap32`, `% 4294967296`);
C `>>` on a signed operand is arithmetic shift, i.e. `Int` division by a
power of two (Lean `Int` `/` is Euclidean division, which agrees with
floor division for positive divisors).
-/

set_option allowUnsafeReducibility true in
attribute [semireducible] Rat.mul

set_option allowUnsafeReducibility true in
attribute [semireducible] Rat.add

set_option allowUnsafeReducibility true in
attribute [semireducible] Rat.sub

set_option allowUnsafeReducibility true in
attribute [semireducible] Rat.div

set_option allowUnsafeReducibility true in
attribute [semireducible] Rat.neg

set_option allowUnsafeReducibility true in
attribute [semireducible] Rat.inv

namespace PiPedal

/-- A decoded MIDI event as written by `MidiPut` (`MidiEvent` in the source:
a frame time, a size, and a 3-byte buffer; the source always stores all
three bytes and lets `size` delimit the meaningful octets). -/
structure MidiEvent where
  time : Nat
  size : Nat
  b0 : Nat
  b1 : Nat
  b2 : Nat
deriving DecidableEq

/-- The meaningful bytes of an event: the first `size` entries of its
3-byte buffer. -/
def MidiEvent.bytes (e : MidiEvent) : List Nat :=
  List.take e.size [e.b0, e.b1, e.b2]

/-- The per-period event sink (`pInputEventBuffer` plus
`inputEventBufferIndex`): a fixed capacity and the events stored so far.
The write cursor of the source is `events.length`. -/
structure MidiMap where
  capacity : Nat
  events : List MidiEvent
deriving DecidableEq

/-- Decoder state of one MIDI endpoint (`AlsaMidiDeviceImpl` members
`runningStatus`, `dataLength`, `dataIndex`, `data0`, `data1`,
`inputProcessingSysex`, and the written prefix of `inputSysexBuffer`,
whose capacity is 1024 bytes). -/
structure DecState where
  runningStatus : Nat
  dataLength : Int
  dataIndex : Int
  data0 : Nat
  data1 : Nat
  inputProcessingSysex : Bool
  inputSysexBuffer : List Nat
deriving DecidableEq

/-- `MAX_MIDI_EVENT_SIZE` from the source. -/
def MAX_MIDI_EVENT_SIZE : Nat := 3

/-- `MAX_MIDI_EVENT` from the source (capacity of the per-period event
vector). -/
def MAX_MIDI_EVENT : Nat := 4 * 1024

/-- `GetDataLength`: voice-message data length table, indexed by the high
nibble of the status byte. -/
def GetDataLength (cc : Nat) : Int :=
  List.getD [0, 0, 0, 0, 0, 0, 0, 0, 2, 2, 2, 2, 1, 1, 1, -1] (cc >>> 4) 0

/-- `GetSystemCommonLength` exactly as written in the source: the table
is indexed by `(cc >> 4) & 0x07`. -/
def GetSystemCommonLength (cc : Nat) : Int :=
  List.getD [-1, 1, 2, 1, -1, -1, 0, 0] ((cc >>> 4) &&& 0x07) 0

/-- `MidiPut`: drop when `cc == 0` or when the event buffer is full,
otherwise append an event of size `dataLength + 1`. -/
def MidiPut (s : DecState) (m : MidiMap) (t : Nat) (cc d0 d1 : Nat) : MidiMap :=
  if cc = 0 then m
  else if m.capacity ≤ m.events.length then m
  else { m with events := m.events ++ [⟨t, (s.dataLength + 1).toNat, cc, d0, d1⟩] }

/-- `FlushSysex`: the in-progress SysEx is discarded (the commented-out
emission in the source is dead); only the flag is cleared. -/
def FlushSysex (s : DecState) : DecState :=
  { s with inputProcessingSysex := false }

/-- The trailing completeness check of `ProcessInputBuffer`
(`dataIndex == dataLength && dataLength >= 0 && runningStatus != 0`):
emit the message and reset `dataIndex`. -/
def MidiCheckComplete (t : Nat) (s : DecState) (m : MidiMap) :
    DecState × MidiMap × Bool :=
  if s.dataIndex = s.dataLength ∧ 0 ≤ s.dataLength ∧ s.runningStatus ≠ 0 then
    ({ s with dataIndex := 0 }, MidiPut s m t s.runningStatus s.data0 s.data1, false)
  else
    (s, m, false)

/-- One iteration of the `for` loop of `ProcessInputBuffer` on byte `v`.
The returned `Bool` is the `break` flag (System Common with table value
`-1`); a System Realtime byte `continue`s, skipping the completeness
check. -/
def ProcessOneByte (t : Nat) (s : DecState) (m : MidiMap) (v : Nat) :
    DecState × MidiMap × Bool :=
  if 0x80 ≤ v then
    if 0xF0 ≤ v then
      if v = 0xF0 then
        MidiCheckComplete t
          { s with
            inputProcessingSysex := true
            inputSysexBuffer := [0xF0]
            runningStatus := 0
            dataLength := -2
            dataIndex := -1 } m
      else if 0xF8 ≤ v then
        (s, m, false)
      else
        let s1 := FlushSysex s
        let len := GetSystemCommonLength v
        if len = -1 then
          (s1, m, true)
        else
          MidiCheckComplete t
            { s1 with runningStatus := v, dataLength := len, dataIndex := 0 } m
    else
      let s1 := FlushSysex s
      let dl := GetDataLength v
      if dl = -1 then
        MidiCheckComplete t
          { s1 with runningStatus := v, dataLength := dl, dataIndex := -1 } m
      else
        MidiCheckComplete t
          { s1 with runningStatus := v, dataLength := dl, dataIndex := 0 } m
  else
    if s.inputProcessingSysex then
      let s1 :=
        if s.inputSysexBuffer.length ≠ 1024 then
          { s with inputSysexBuffer := s.inputSysexBuffer ++ [v] }
        else s
      MidiCheckComplete t s1 m
    else
      let s1 :=
        if s.dataIndex = 0 then { s with data0 := v, dataIndex := 1 }
        else if s.dataIndex = 1 then { s with data1 := v, dataIndex := 2 }
        else s
      MidiCheckComplete t s1 m

/-- `ProcessInputBuffer`: fold `ProcessOneByte` over the byte list,
stopping early when the `break` flag is raised. -/
def ProcessInputBuffer (t : Nat) : DecState → MidiMap → List Nat →
    DecState × MidiMap
  | s, m, [] => (s, m)
  | s, m, v :: rest =>
    let r := ProcessOneByte t s m v
    if r.2.2 then (r.1, r.2.1) else ProcessInputBuffer t r.1 r.2.1 rest

/-- Decoder state right after `Open()` (all counters zeroed; the members
`data0`/`data1` are zero-initialised at construction). -/
def freshDecState : DecState :=
  ⟨0, 0, 0, 0, 0, false, []⟩

/-- An empty event sink of the given capacity. -/
def freshMidiMap (cap : Nat) : MidiMap :=
  ⟨cap, []⟩

/-- Invariant on decoder state used for the buffer-safety claim:
`dataLength` only ever holds a value set by `GetDataLength` (`1`, `2`),
`GetSystemCommonLength` (`0`, `1`, `2`), the SysEx marker (`-2`), or the
indefinite marker (`-1`). -/
def DecInv (s : DecState) : Prop :=
  -2 ≤ s.dataLength ∧ s.dataLength ≤ 2

instance (s : DecState) : Decidable (DecInv s) := by
  unfold DecInv
  infer_instance

/-! ### Sample codec

Per-sample embeddings of the `CopyCapture*` / `CopyPlayback*` codec
functions.  A stored sample is modelled by its wire pattern: a `Nat`
below `2^16` (16-bit formats), below `2^32` (32-bit container formats),
or three byte values (packed-3 formats).  Float samples and arithmetic
are modelled as exact rationals. -/

/-- The C cast `(intN_t)(float)`: truncation toward zero
(`Int.tdiv` is truncating division and `q.den` is positive). -/
def truncToZero (q : ℚ) : ℤ :=
  q.num.tdiv q.den

/-- Saturating clamp of `CopyPlayback*`:
`if (v > 1.0f) v = 1.0f; else if (v < -1.0f) v = -1.0f;`. -/
def clampF (v : ℚ) : ℚ :=
  if 1 < v then 1 else if v < -1 then -1 else v

/-- Reduction of an integer into `int16_t` two's-complement range
(the effect of storing into an `int16_t`). -/
def wrap16 (v : ℤ) : ℤ :=
  (v + 32768) % 65536 - 32768

/-- Reduction of an integer into `int32_t` two's-complement range. -/
def wrap32 (v : ℤ) : ℤ :=
  (v + 2147483648) % 4294967296 - 2147483648

/-- The 16-bit wire pattern of an `int16_t` value. -/
def toNat16 (v : ℤ) : ℕ :=
  (v % 65536).toNat

/-- The `int16_t` value read back from a 16-bit wire pattern. -/
def fromNat16 (n : ℕ) : ℤ :=
  if n < 32768 then (n : ℤ) else (n : ℤ) - 65536

/-- The 32-bit wire pattern of an `int32_t` value. -/
def toNat32 (v : ℤ) : ℕ :=
  (v % 4294967296).toNat

/-- The `int32_t` value read back from a 32-bit wire pattern. -/
def fromNat32 (n : ℕ) : ℤ :=
  if n < 2147483648 then (n : ℤ) else (n : ℤ) - 4294967296

/-- The signed value of a 24-bit (packed-3) wire pattern. -/
def fromNat24 (n : ℕ) : ℤ :=
  if n < 8388608 then (n : ℤ) else (n : ℤ) - 16777216

/-- `(uint8_t)(v >> k)` on an `int32_t`: arithmetic shift right then
truncation to a byte (`Int` `/` and `%` are Euclidean, which for the
positive divisors used here matches C arithmetic shift and
two's-complement byte extraction). -/
def byteOfInt (v : ℤ) (k : ℕ) : ℕ :=
  ((v / 2 ^ k) % 256).toNat

/-- `EndianSwap(int16_t)` of the source, expressed on the 16-bit wire
pattern: `b0 = v & 0xFF; b1 = (v >> 8) & 0xFF; return (b0 << 8) | b1;`. -/
def EndianSwap16 (n : ℕ) : ℕ :=
  ((n % 256) <<< 8) ||| ((n >>> 8) % 256)

/-- `EndianSwap(int32_t)` of the source, expressed on the 32-bit wire
pattern. -/
def EndianSwap32 (n : ℕ) : ℕ :=
  ((n % 256) <<< 24) ||| (((n >>> 8) % 256) <<< 16) |||
    (((n >>> 16) % 256) <<< 8) ||| ((n >>> 24) % 256)

/-- `EndianSwap` acting on an `int16_t` value. -/
def EndianSwapI16 (v : ℤ) : ℤ :=
  fromNat16 (EndianSwap16 (toNat16 v))

/-- `EndianSwap` acting on an `int32_t` value. -/
def EndianSwapI32 (v : ℤ) : ℤ :=
  fromNat32 (EndianSwap32 (toNat32 v))

/-- `CopyPlaybackS16Le`, one sample: clamp, scale by
`std::numeric_limits<int16_t>::max()`, cast to `int16_t`, store. -/
def CopyPlaybackS16LeSample (x : ℚ) : ℕ :=
  toNat16 (wrap16 (truncToZero (32767 * clampF x)))

/-- `CopyPlaybackS16Be`, one sample: as LE but the stored `int16_t` is
`EndianSwap`ped. -/
def CopyPlaybackS16BeSample (x : ℚ) : ℕ :=
  toNat16 (EndianSwapI16 (wrap16 (truncToZero (32767 * clampF x))))

/-- `CopyCaptureS16Le`, one sample: `scale * v` with
`scale = 1.0f / (int16_max + 1)`. -/
def CopyCaptureS16LeSample (w : ℕ) : ℚ :=
  (fromNat16 w : ℚ) * (1 / 32768)

/-- `CopyCaptureS16Be`, one sample: `EndianSwap` the read `int16_t`
first. -/
def CopyCaptureS16BeSample (w : ℕ) : ℚ :=
  (EndianSwapI16 (fromNat16 w) : ℚ) * (1 / 32768)

/-- The C cast `(int32_t)` applied to a float value: truncation toward
zero when the truncated value is representable in `int32_t`; an
out-of-range float-to-integer conversion is undefined behaviour
(C++ [conv.fpint]), modelled as `none`. -/
def CastToInt32 (q : ℚ) : Option ℤ :=
  if -2147483648 ≤ truncToZero q ∧ truncToZero q < 2147483648 then
    some (truncToZero q)
  else none

/-- `CopyPlaybackS32Le`, one sample.  The source's
`constexpr float scale = std::numeric_limits<int32_t>::max()` stores
`2147483647` into a binary32 float; `2^31 - 1` is not representable in
24 significand bits and rounds to `2147483648.0f`, so the scale the
program multiplies by is `2147483648`.  The scaled value of a fully
clamped `+1.0` sample is `2^31`, outside `int32_t` range, so that
conversion is undefined (`none`). -/
def CopyPlaybackS32LeSample (x : ℚ) : Option ℕ :=
  (CastToInt32 (2147483648 * clampF x)).map toNat32

/-- `CopyPlaybackS32Be`, one sample (same scale; the stored `int32_t` is
`EndianSwap`ped). -/
def CopyPlaybackS32BeSample (x : ℚ) : Option ℕ :=
  (CastToInt32 (2147483648 * clampF x)).map fun i => toNat32 (EndianSwapI32 i)

/-- `CopyCaptureS32Le`, one sample: `scale = 1.0f / (int32_max + 1)`. -/
def CopyCaptureS32LeSample (w : ℕ) : ℚ :=
  (fromNat32 w : ℚ) * (1 / 2147483648)

/-- `CopyCaptureS32Be`, one sample. -/
def CopyCaptureS32BeSample (w : ℕ) : ℚ :=
  (EndianSwapI32 (fromNat32 w) : ℚ) * (1 / 2147483648)

/-- `CopyPlaybackS24Le` (24 bits in the low bits of an `int32_t`), one
sample: scale `0x00FFFFFF`. -/
def CopyPlaybackS24LeSample (x : ℚ) : ℕ :=
  toNat32 (wrap32 (truncToZero (16777215 * clampF x)))

/-- `CopyPlaybackS24Be`, one sample. -/
def CopyPlaybackS24BeSample (x : ℚ) : ℕ :=
  toNat32 (EndianSwapI32 (wrap32 (truncToZero (16777215 * clampF x))))

/-- `CopyCaptureS24Le`, one sample: `scale = 1.0f / (0x00FFFFFF + 1)`. -/
def CopyCaptureS24LeSample (w : ℕ) : ℚ :=
  (fromNat32 w : ℚ) * (1 / 16777216)

/-- `CopyCaptureS24Be`, one sample. -/
def CopyCaptureS24BeSample (w : ℕ) : ℚ :=
  (EndianSwapI32 (fromNat32 w) : ℚ) * (1 / 16777216)

/-- `CopyPlaybackS24_3Le`, one sample: the scale is the same rounded
`2147483648.0f` as for S32 (see `CopyPlaybackS32LeSample`); the three
stored bytes are `p[0] = (uint8_t)(iValue >> 8)`,
`p[1] = (uint8_t)(iValue >> 16)`, `p[2] = (uint8_t)(iValue >> 24)`. -/
def CopyPlaybackS24_3LeSample (x : ℚ) : Option (ℕ × ℕ × ℕ) :=
  (CastToInt32 (2147483648 * clampF x)).map fun iValue =>
    (byteOfInt iValue 8, byteOfInt iValue 16, byteOfInt iValue 24)

/-- `CopyPlaybackS24_3Be`, one sample: bytes in the opposite order. -/
def CopyPlaybackS24_3BeSample (x : ℚ) : Option (ℕ × ℕ × ℕ) :=
  (CastToInt32 (2147483648 * clampF x)).map fun iValue =>
    (byteOfInt iValue 24, byteOfInt iValue 16, byteOfInt iValue 8)

/-- The `int32_t` read by `CopyCaptureS24_3Le` exactly as the source
writes it: `int32_t v = (p[0] << 8) + (p[1] << 16) | (p[2] << 24);`
(the `|` binds looser than the `+`), evaluated in 32-bit arithmetic. -/
def CaptureS24_3LeWordSource (p0 p1 p2 : ℕ) : ℕ :=
  (((p0 <<< 8) + (p1 <<< 16)) ||| (p2 <<< 24)) % 4294967296

/-- The spec's normative reading of the same expression: pure bit-OR. -/
def CaptureS24_3LeWordSpec (p0 p1 p2 : ℕ) : ℕ :=
  ((p0 <<< 8) ||| (p1 <<< 16) ||| (p2 <<< 24)) % 4294967296

/-- `CopyCaptureS24_3Le`, one sample: `scale * v` with
`scale = 1.0f / (int32_max + 1)`. -/
def CopyCaptureS24_3LeSample (p0 p1 p2 : ℕ) : ℚ :=
  (fromNat32 (CaptureS24_3LeWordSource p0 p1 p2) : ℚ) * (1 / 2147483648)

/-- `CopyCaptureS24_3Be`, one sample:
`int32_t v = (p[2] << 8) + (p[1] << 16) | (p[0] << 24);`. -/
def CopyCaptureS24_3BeSample (p0 p1 p2 : ℕ) : ℚ :=
  (fromNat32 ((((p2 <<< 8) + (p1 <<< 16)) ||| (p0 <<< 24)) % 4294967296) : ℚ) *
    (1 / 2147483648)

/-- The nine supported `(format, endianness)` codec dispatch targets
(plus the in-4-byte S24 pair, giving all `CopyCapture*`/`CopyPlayback*`
pairs present in the source). -/
inductive PcmFormat where
  | floatLe | floatBe
  | s16Le | s16Be
  | s32Le | s32Be
  | s24Le | s24Be
  | s24_3Le | s24_3Be
deriving DecidableEq

/-- Decode-after-encode of one sample for each format pair.  For the
float formats both directions copy the 4-byte pattern (big-endian
applies `EndianSwap` to the bit pattern on both sides, and the swap is
an involution), so in the rational model the round trip is the
identity.  The S16, S24-in-4 and float encoders are total (their scale
constants are exact in binary32 and the scaled clamp range fits the
target integer type); the S32 and S24-packed-3 encoders are partial
because their scale constant rounds to `2^31` and the int32 conversion
of a fully clamped `+1.0` sample is undefined behaviour. -/
def roundTrip : PcmFormat → ℚ → Option ℚ
  | .floatLe, x => some x
  | .floatBe, x => some x
  | .s16Le, x => some (CopyCaptureS16LeSample (CopyPlaybackS16LeSample x))
  | .s16Be, x => some (CopyCaptureS16BeSample (CopyPlaybackS16BeSample x))
  | .s32Le, x => (CopyPlaybackS32LeSample x).map CopyCaptureS32LeSample
  | .s32Be, x => (CopyPlaybackS32BeSample x).map CopyCaptureS32BeSample
  | .s24Le, x => some (CopyCaptureS24LeSample (CopyPlaybackS24LeSample x))
  | .s24Be, x => some (CopyCaptureS24BeSample (CopyPlaybackS24BeSample x))
  | .s24_3Le, x =>
    (CopyPlaybackS24_3LeSample x).map fun p =>
      CopyCaptureS24_3LeSample p.1 p.2.1 p.2.2
  | .s24_3Be, x =>
    (CopyPlaybackS24_3BeSample x).map fun p =>
      CopyCaptureS24_3BeSample p.1 p.2.1 p.2.2

/-- The error bound asserted by the specification: `4×10⁻⁵` for the 24-
and 32-bit formats, `2⁻¹⁵` for the 16-bit formats. -/
def specRoundTripBound : PcmFormat → ℚ
  | .s16Le | .s16Be => 1 / 32768
  | _ => 1 / 25000

/-- The corrected error bound: the 16-bit formats need `2⁻¹⁴`. -/
def roundTripBound : PcmFormat → ℚ
  | .s16Le | .s16Be => 1 / 16384
  | _ => 1 / 25000

/-- The integer playback formats (the `CopyPlayback*` functions that
clamp, scale and convert to an integer; the float formats store the
sample bit pattern unchanged). -/
inductive IntPcmFormat where
  | s16Le | s16Be
  | s32Le | s32Be
  | s24Le | s24Be
  | s24_3Le | s24_3Be
deriving DecidableEq, Fintype

/-- The integer sample value represented by the bytes each
`CopyPlayback*` function stores for input `x`, or `none` when the
conversion is undefined behaviour (the S32/S24-packed-3 scale rounds to
`2^31` in binary32, so a fully clamped `+1.0` sample overflows the
int32 cast).  Endianness permutes the stored bytes but not the
represented value, so LE and BE share a formula; for the packed-3
formats the represented value is the signed 24-bit number held in the
three stored bytes. -/
def encodeValue : IntPcmFormat → ℚ → Option ℤ
  | .s16Le, x | .s16Be, x => some (wrap16 (truncToZero (32767 * clampF x)))
  | .s32Le, x | .s32Be, x => CastToInt32 (2147483648 * clampF x)
  | .s24Le, x | .s24Be, x => some (wrap32 (truncToZero (16777215 * clampF x)))
  | .s24_3Le, x =>
    (CopyPlaybackS24_3LeSample x).map fun p =>
      fromNat24 (p.1 + 256 * p.2.1 + 65536 * p.2.2)
  | .s24_3Be, x =>
    (CopyPlaybackS24_3BeSample x).map fun p =>
      fromNat24 (p.2.2 + 256 * p.2.1 + 65536 * p.1)

/-- The format's maximum representable positive integer, in the sense
the specification itself uses (the encode scale): `int16` max for S16,
`int32` max for S32, `0x00FFFFFF` for S24-in-4, and the largest signed
24-bit value for S24-packed-3. -/
def formatMaxInt : IntPcmFormat → ℤ
  | .s16Le | .s16Be => 32767
  | .s32Le | .s32Be => 2147483647
  | .s24Le | .s24Be => 16777215
  | .s24_3Le | .s24_3Be => 8388607

/-- The formats whose encode scale constant is
`std::numeric_limits<int32_t>::max()` stored in a float, i.e. the
binary32-rounded value `2147483648.0f`. -/
def HasRoundedScale (F : IntPcmFormat) : Prop :=
  F = .s32Le ∨ F = .s32Be ∨ F = .s24_3Le ∨ F = .s24_3Be

instance (F : IntPcmFormat) : Decidable (HasRoundedScale F) := by
  unfold HasRoundedScale
  infer_instance

/-! ### Periods negotiation

The period-count fragment of `AlsaConfigureStream` (the ALSA calls
`snd_pcm_hw_params_set_periods_min` / `_near` are modelled as arbitrary
device-response functions; `AlsaError` throws, modelled as `none`). -/

/-- Lines 433–447 of `AlsaDriver.cpp`: seed `*periods` with the request,
let the device raise it to its minimum (result code ignored), clamp back
up to the request, negotiate nearest, and fail if the final value is
smaller than requested. -/
def AlsaConfigurePeriods (setPeriodsMin : ℕ → ℕ)
    (setPeriodsNear : ℕ → Option ℕ) (numberOfBuffers : ℕ) : Option ℕ :=
  let p1 := setPeriodsMin numberOfBuffers
  let p2 := if p1 < numberOfBuffers then numberOfBuffers else p1
  match setPeriodsNear p2 with
  | none => none
  | some p3 => if p3 < numberOfBuffers then none else some p3

/-! ### Float playback channel iteration -/

/-- The sequence of samples `CopyPlaybackFloatLe` writes to the raw
playback buffer: for each frame, one sample per channel with
`channels = this->captureChannels` (sic — the capture channel count),
reading `buffers[channel][frame]` from the playback buffers. -/
def CopyPlaybackFloatLeWritten : ℕ → ℕ → (ℕ → ℕ → ℚ) → List ℚ
  | 0, _, _ => []
  | frames + 1, captureChannels, buffers =>
    CopyPlaybackFloatLeWritten frames captureChannels buffers ++
      (List.range captureChannels).map fun channel => buffers channel frames

/-- The sequence of sample values `CopyPlaybackFloatBe` writes.  The
loop structure is identical to the LE variant (including the use of
`captureChannels`); each stored sample is additionally byte-swapped on
the wire, which does not change which sample values are written. -/
def CopyPlaybackFloatBeWritten : ℕ → ℕ → (ℕ → ℕ → ℚ) → List ℚ
  | 0, _, _ => []
  | frames + 1, captureChannels, buffers =>
    CopyPlaybackFloatBeWritten frames captureChannels buffers ++
      (List.range captureChannels).map fun channel => buffers channel frames

/-- The specified per-format F32 encode rule, written from the spec's
words: per frame, one interleaved sample for each playback channel. -/
def SpecPlaybackFloatWritten : ℕ → ℕ → (ℕ → ℕ → ℚ) → List ℚ
  | 0, _, _ => []
  | frames + 1, playbackChannels, buffers =>
    SpecPlaybackFloatWritten frames playbackChannels buffers ++
      (List.range playbackChannels).map fun channel => buffers channel frames

/-! ## Theorems -/

/-- Claim C1: starting from a freshly opened decoder, feeding
`[0x80, 0x01, 0x02, 0x03, 0x04, 0x05]` emits exactly the events
`[80,01,02]` and `[80,03,04]` and leaves the residual data byte `05`
buffered (in `data0`, with `dataIndex = 1`); the subsequent feed
`[0x06, 0xC0, 0x01, 0x02]` emits exactly the three further events
`[80,05,06]`, `[C0,01]` and `[C0,02]` (running status). -/
theorem midi_running_status :
    (let r1 := ProcessInputBuffer 0 freshDecState (freshMidiMap MAX_MIDI_EVENT)
        [0x80, 0x01, 0x02, 0x03, 0x04, 0x05]
     let r2 := ProcessInputBuffer 0 r1.1 r1.2 [0x06, 0xC0, 0x01, 0x02]
     r1.2.events.map MidiEvent.bytes = [[0x80, 0x01, 0x02], [0x80, 0x03, 0x04]] ∧
       r1.1.data0 = 0x05 ∧ r1.1.dataIndex = 1 ∧
       r2.2.events.map MidiEvent.bytes =
         [[0x80, 0x01, 0x02], [0x80, 0x03, 0x04],
          [0x80, 0x05, 0x06], [0xC0, 0x01], [0xC0, 0x02]]) := by
  decide

/-- Claim C3 (code divergence): `GetSystemCommonLength` as written
indexes its table with `(cc >> 4) & 0x07`, which equals `7` for every
System Common status byte, so every lookup returns `0` instead of the
table's intended `{F1:1, F2:2, F3:1}` values; consequently feeding
`[0xF2, 0x10, 0x20]` to a fresh decoder emits an immediate size-1 event
`[F2]` with expected data length `0` and discards the two data bytes,
instead of accumulating two data bytes. -/
theorem system_common_code_behaviour :
    GetSystemCommonLength 0xF1 = 0 ∧ GetSystemCommonLength 0xF2 = 0 ∧
      GetSystemCommonLength 0xF3 = 0 ∧ GetSystemCommonLength 0xF4 = 0 ∧
      (let r := ProcessInputBuffer 0 freshDecState (freshMidiMap MAX_MIDI_EVENT)
          [0xF2, 0x10, 0x20]
       r.2.events.map MidiEvent.bytes = [[0xF2]] ∧
         r.1.runningStatus = 0xF2 ∧ r.1.dataLength = 0 ∧ r.1.dataIndex = 2) := by
  decide

/-- Claim C4: a System Realtime byte (`0xF8..0xFF`) is discarded by the
`continue` branch at any position and in any decoder state: it emits no
event and leaves the running status, data accumulation and SysEx state
untouched; in particular `[0x90, 0xF8, 0x3C, 0xFA, 0x7F]` emits exactly
one event `[90,3C,7F]`. -/
theorem midi_realtime_transparency :
    (∀ (s : DecState) (m : MidiMap) (t v : ℕ), 0xF8 ≤ v → v ≤ 0xFF →
      ProcessOneByte t s m v = (s, m, false)) ∧
      (ProcessInputBuffer 0 freshDecState (freshMidiMap MAX_MIDI_EVENT)
          [0x90, 0xF8, 0x3C, 0xFA, 0x7F]).2.events.map MidiEvent.bytes =
        [[0x90, 0x3C, 0x7F]] := by
  constructor
  · intro s m t v h1 h2
    unfold ProcessOneByte
    rw [if_pos (by omega), if_pos (by omega), if_neg (by omega), if_pos h1]
  · decide

/-- Witness for C4: the realtime byte `0xFA` in a fresh state. -/
theorem midi_realtime_transparency_witness :
    0xF8 ≤ 0xFA ∧ 0xFA ≤ 0xFF ∧
      ProcessOneByte 0 freshDecState (freshMidiMap MAX_MIDI_EVENT) 0xFA =
        (freshDecState, freshMidiMap MAX_MIDI_EVENT, false) :=
  ⟨by decide, by decide,
    midi_realtime_transparency.1 freshDecState (freshMidiMap MAX_MIDI_EVENT)
      0 0xFA (by decide) (by decide)⟩

/-- Claim C5 as stated is false: feeding `[0xF0, 0x76, 0x3B]` and then
`[0x77, 0xF7, 0x90, 0x40, 0x50]` does not emit exactly the single event
`[90,40,50]` — the EOX byte `0xF7` also completes as a zero-data-byte
message and emits a size-1 event `[F7]` first. -/
theorem sysex_single_event_counterexample :
    ¬ (let r1 := ProcessInputBuffer 0 freshDecState (freshMidiMap MAX_MIDI_EVENT)
        [0xF0, 0x76, 0x3B]
       let r2 := ProcessInputBuffer 0 r1.1 r1.2 [0x77, 0xF7, 0x90, 0x40, 0x50]
       r2.2.events.map MidiEvent.bytes = [[0x90, 0x40, 0x50]]) := by
  decide

/-- Claim C5 (amended): the SysEx payload itself is never emitted — the
first feed buffers `F0 76 3B` in the SysEx scratch and emits nothing,
and the second feed consumes and drops the SysEx, emitting exactly two
events: the size-1 event `[F7]` produced when the EOX byte arrives
(`0xF7` sets running status with expected data length `0`), followed by
`[90,40,50]`. -/
theorem sysex_discarded_amended :
    (let r1 := ProcessInputBuffer 0 freshDecState (freshMidiMap MAX_MIDI_EVENT)
        [0xF0, 0x76, 0x3B]
     let r2 := ProcessInputBuffer 0 r1.1 r1.2 [0x77, 0xF7, 0x90, 0x40, 0x50]
     r1.2.events = [] ∧ r1.1.inputProcessingSysex = true ∧
       r1.1.inputSysexBuffer = [0xF0, 0x76, 0x3B] ∧
       r2.2.events.map MidiEvent.bytes = [[0xF7], [0x90, 0x40, 0x50]] ∧
       r2.1.inputProcessingSysex = false) := by
  decide

/-- Claim C8: if the near-negotiated period count is smaller than the
request, configuration fails (`AlsaError`, modelled as `none`); any
successful configuration returns a period count at least the request. -/
theorem periods_negotiation (setPeriodsMin : ℕ → ℕ)
    (setPeriodsNear : ℕ → Option ℕ) (numberOfBuffers : ℕ) :
    (∀ p, AlsaConfigurePeriods setPeriodsMin setPeriodsNear numberOfBuffers =
        some p → numberOfBuffers ≤ p) ∧
      ∀ p, setPeriodsNear
          (if setPeriodsMin numberOfBuffers < numberOfBuffers then
            numberOfBuffers else setPeriodsMin numberOfBuffers) = some p →
        p < numberOfBuffers →
        AlsaConfigurePeriods setPeriodsMin setPeriodsNear numberOfBuffers =
          none := by
  constructor
  · intro p h
    simp only [AlsaConfigurePeriods] at h
    cases hnear : setPeriodsNear
        (if setPeriodsMin numberOfBuffers < numberOfBuffers then
          numberOfBuffers else setPeriodsMin numberOfBuffers) with
    | none =>
      rw [hnear] at h
      simp at h
    | some p3 =>
      rw [hnear] at h
      simp only [] at h
      by_cases hc : p3 < numberOfBuffers
      · rw [if_pos hc] at h
        simp at h
      · rw [if_neg hc] at h
        simp at h
        omega
  · intro p hnear hlt
    simp only [AlsaConfigurePeriods]
    rw [hnear]
    simp only []
    rw [if_pos hlt]

/-- Witness for C8: a device that raises the request `3` to `4` and
accepts it succeeds with `4 ≥ 3`; a device whose near-negotiation
returns `2 < 3` makes configuration fail. -/
theorem periods_negotiation_witness :
    (AlsaConfigurePeriods (fun n => n + 1) (fun n => some n) 3 = some 4 ∧
      3 ≤ 4) ∧
      AlsaConfigurePeriods (fun n => n + 1) (fun _ => some 2) 3 = none :=
  ⟨⟨by decide, (periods_negotiation (fun n => n + 1) (fun n => some n) 3).1 4
      (by decide)⟩,
    (periods_negotiation (fun n => n + 1) (fun _ => some 2) 3).2 2 (by decide)
      (by decide)⟩

lemma copyPlaybackFloatLeWritten_length (frames cc : ℕ) (buffers : ℕ → ℕ → ℚ) :
    (CopyPlaybackFloatLeWritten frames cc buffers).length = frames * cc := by
  induction frames with
  | zero => simp [CopyPlaybackFloatLeWritten]
  | succ n ih =>
    simp [CopyPlaybackFloatLeWritten, ih, Nat.succ_mul]

lemma specPlaybackFloatWritten_length (frames pc : ℕ) (buffers : ℕ → ℕ → ℚ) :
    (SpecPlaybackFloatWritten frames pc buffers).length = frames * pc := by
  induction frames with
  | zero => simp [SpecPlaybackFloatWritten]
  | succ n ih =>
    simp [SpecPlaybackFloatWritten, ih, Nat.succ_mul]

lemma copyPlaybackFloatLeWritten_eq_spec (frames c : ℕ)
    (buffers : ℕ → ℕ → ℚ) :
    CopyPlaybackFloatLeWritten frames c buffers =
      SpecPlaybackFloatWritten frames c buffers := by
  induction frames with
  | zero => rfl
  | succ n ih =>
    simp [CopyPlaybackFloatLeWritten, SpecPlaybackFloatWritten, ih]

lemma copyPlaybackFloatBeWritten_eq_le (frames c : ℕ)
    (buffers : ℕ → ℕ → ℚ) :
    CopyPlaybackFloatBeWritten frames c buffers =
      CopyPlaybackFloatLeWritten frames c buffers := by
  induction frames with
  | zero => rfl
  | succ n ih =>
    simp [CopyPlaybackFloatBeWritten, CopyPlaybackFloatLeWritten, ih]

/-- Claim C10: the F32 playback encoders iterate the capture channel
count — per frame they write exactly `captureChannels` interleaved
samples (so the output length is `frames * captureChannels`, and the BE
variant writes the same sample sequence); the written sequence matches
the specified per-format rule over the playback channels exactly when
`captureChannels = playbackChannels` (for any nonempty period). -/
theorem float_playback_channel_iteration (captureChannels playbackChannels
    frames : ℕ) (buffers : ℕ → ℕ → ℚ) :
    (CopyPlaybackFloatLeWritten frames captureChannels buffers).length =
        frames * captureChannels ∧
      CopyPlaybackFloatBeWritten frames captureChannels buffers =
        CopyPlaybackFloatLeWritten frames captureChannels buffers ∧
      (captureChannels = playbackChannels →
        CopyPlaybackFloatLeWritten frames captureChannels buffers =
          SpecPlaybackFloatWritten frames playbackChannels buffers) ∧
      (0 < frames →
        (CopyPlaybackFloatLeWritten frames captureChannels buffers =
            SpecPlaybackFloatWritten frames playbackChannels buffers ↔
          captureChannels = playbackChannels)) := by
  refine ⟨copyPlaybackFloatLeWritten_length _ _ _,
    copyPlaybackFloatBeWritten_eq_le _ _ _, ?_, ?_⟩
  · intro h
    rw [h]
    exact copyPlaybackFloatLeWritten_eq_spec _ _ _
  · intro hframes
    constructor
    · intro h
      have hlen := congrArg List.length h
      rw [copyPlaybackFloatLeWritten_length,
        specPlaybackFloatWritten_length] at hlen
      exact Nat.eq_of_mul_eq_mul_left hframes hlen
    · intro h
      rw [h]
      exact copyPlaybackFloatLeWritten_eq_spec _ _ _

/-- Witness for C10 at `frames = 1`, two capture and two playback
channels, with the buffer map sending channel `c` to the constant
`c`. -/
theorem float_playback_channel_iteration_witness :
    ((2 : ℕ) = 2) ∧
      CopyPlaybackFloatLeWritten 1 2 (fun c _ => (c : ℚ)) =
        SpecPlaybackFloatWritten 1 2 (fun c _ => (c : ℚ)) :=
  ⟨rfl, (float_playback_channel_iteration 2 2 1
    (fun c _ => (c : ℚ))).2.2.1 rfl⟩

lemma getDataLength_range (cc : ℕ) :
    -1 ≤ GetDataLength cc ∧ GetDataLength cc ≤ 2 := by
  unfold GetDataLength
  generalize cc >>> 4 = i
  by_cases h : i < 16
  · interval_cases i <;> decide
  · rw [List.getD_eq_default]
    · norm_num
    · simpa using h

lemma getSystemCommonLength_range (cc : ℕ) :
    -1 ≤ GetSystemCommonLength cc ∧ GetSystemCommonLength cc ≤ 2 := by
  unfold GetSystemCommonLength
  have h : (cc >>> 4) &&& 0x07 < 8 :=
    Nat.lt_succ_of_le Nat.and_le_right
  generalize (cc >>> 4) &&& 0x07 = i at h
  interval_cases i <;> decide

lemma midiPut_full (s : DecState) (m : MidiMap) (t cc d0 d1 : ℕ)
    (h : m.capacity ≤ m.events.length) : MidiPut s m t cc d0 d1 = m := by
  simp [MidiPut, h]

lemma midiCheckComplete_safety (t : ℕ) (s : DecState) (m : MidiMap)
    (hinv : DecInv s) (hcap : m.events.length ≤ m.capacity) :
    DecInv (MidiCheckComplete t s m).1 ∧
      (MidiCheckComplete t s m).2.1.capacity = m.capacity ∧
      (MidiCheckComplete t s m).2.1.events.length ≤
        (MidiCheckComplete t s m).2.1.capacity ∧
      ∀ e ∈ (MidiCheckComplete t s m).2.1.events,
        e ∈ m.events ∨ (1 ≤ e.size ∧ e.size ≤ 3) := by
  obtain ⟨hlo, hhi⟩ := hinv
  unfold MidiCheckComplete
  split
  · next hcond =>
    obtain ⟨-, hdl, hrs⟩ := hcond
    unfold MidiPut
    rw [if_neg hrs]
    by_cases hfull : m.capacity ≤ m.events.length
    · rw [if_pos hfull]
      exact ⟨⟨hlo, hhi⟩, rfl, hcap, fun e he => Or.inl he⟩
    · rw [if_neg hfull]
      refine ⟨⟨hlo, hhi⟩, rfl, ?_, ?_⟩
      · simp only [List.length_append, List.length_singleton]
        omega
      · intro e he
        rcases List.mem_append.1 he with h | h
        · exact Or.inl h
        · right
          rw [List.mem_singleton.1 h]
          simp only
          omega
  · exact ⟨⟨hlo, hhi⟩, rfl, hcap, fun e he => Or.inl he⟩

lemma processOneByte_safety (t : ℕ) (s : DecState) (m : MidiMap) (v : ℕ)
    (hinv : DecInv s) (hcap : m.events.length ≤ m.capacity) :
    DecInv (ProcessOneByte t s m v).1 ∧
      (ProcessOneByte t s m v).2.1.capacity = m.capacity ∧
      (ProcessOneByte t s m v).2.1.events.length ≤
        (ProcessOneByte t s m v).2.1.capacity ∧
      ∀ e ∈ (ProcessOneByte t s m v).2.1.events,
        e ∈ m.events ∨ (1 ≤ e.size ∧ e.size ≤ 3) := by
  obtain ⟨hlo, hhi⟩ := hinv
  have hvr := getDataLength_range v
  have hcr := getSystemCommonLength_range v
  simp only [ProcessOneByte]
  split_ifs with h1 h2 h3 h4 h5 h6 h7 h8 h9 h10 <;>
    first
      | exact ⟨⟨hlo, hhi⟩, rfl, hcap, fun e he => Or.inl he⟩
      | (refine midiCheckComplete_safety _ _ _ ?_ hcap
         unfold DecInv
         first
           | exact ⟨hlo, hhi⟩
           | (dsimp only [FlushSysex]
              omega))

lemma processInputBuffer_safety (t : ℕ) (bytes : List ℕ) :
    ∀ (s : DecState) (m : MidiMap), DecInv s →
      m.events.length ≤ m.capacity →
      DecInv (ProcessInputBuffer t s m bytes).1 ∧
        (ProcessInputBuffer t s m bytes).2.capacity = m.capacity ∧
        (ProcessInputBuffer t s m bytes).2.events.length ≤
          (ProcessInputBuffer t s m bytes).2.capacity ∧
        ∀ e ∈ (ProcessInputBuffer t s m bytes).2.events,
          e ∈ m.events ∨ (1 ≤ e.size ∧ e.size ≤ 3) := by
  induction bytes with
  | nil =>
    intro s m hinv hcap
    exact ⟨hinv, rfl, hcap, fun e he => Or.inl he⟩
  | cons v rest ih =>
    intro s m hinv hcap
    have h1 := processOneByte_safety t s m v hinv hcap
    simp only [ProcessInputBuffer]
    split
    · exact ⟨h1.1, h1.2.1, h1.2.2.1, h1.2.2.2⟩
    · have h2 := ih (ProcessOneByte t s m v).1 (ProcessOneByte t s m v).2.1
        h1.1 h1.2.2.1
      refine ⟨h2.1, h2.2.1.trans h1.2.1, h2.2.2.1, ?_⟩
      intro e he
      rcases h2.2.2.2 e he with h | h
      · exact h1.2.2.2 e h
      · exact Or.inr h

/-- Claim C9: processing any byte sequence from any decoder state
satisfying the decoder invariant never takes the event write cursor
(`events.length`) past the buffer capacity; `MidiPut` on a full buffer
drops the event silently (the map is returned unchanged); and every
event stored during processing has size between `1` and
`MAX_MIDI_EVENT_SIZE = 3`, so it stays inside its 3-byte buffer. -/
theorem midi_event_buffer_safety (s : DecState) (m : MidiMap) (t : ℕ)
    (bytes : List ℕ) (hinv : DecInv s)
    (hcap : m.events.length ≤ m.capacity) :
    (ProcessInputBuffer t s m bytes).2.events.length ≤
        (ProcessInputBuffer t s m bytes).2.capacity ∧
      (ProcessInputBuffer t s m bytes).2.capacity = m.capacity ∧
      DecInv (ProcessInputBuffer t s m bytes).1 ∧
      (∀ e ∈ (ProcessInputBuffer t s m bytes).2.events,
        e ∈ m.events ∨ (1 ≤ e.size ∧ e.size ≤ MAX_MIDI_EVENT_SIZE)) ∧
      ∀ cc d0 d1, m.capacity ≤ m.events.length → MidiPut s m t cc d0 d1 = m := by
  have h := processInputBuffer_safety t bytes s m hinv hcap
  exact ⟨h.2.2.1, h.2.1, h.1, h.2.2.2,
    fun cc d0 d1 hfull => midiPut_full s m t cc d0 d1 hfull⟩

/-- Witness for C9: a capacity-1 buffer fed two complete Note-On
messages: the second event is dropped, the cursor stays at the
capacity. -/
theorem midi_event_buffer_safety_witness :
    DecInv freshDecState ∧
      (freshMidiMap 1).events.length ≤ (freshMidiMap 1).capacity ∧
      ((ProcessInputBuffer 0 freshDecState (freshMidiMap 1)
            [0x90, 0x01, 0x02, 0x90, 0x03, 0x04]).2.events.length ≤
          (ProcessInputBuffer 0 freshDecState (freshMidiMap 1)
            [0x90, 0x01, 0x02, 0x90, 0x03, 0x04]).2.capacity ∧
        (ProcessInputBuffer 0 freshDecState (freshMidiMap 1)
            [0x90, 0x01, 0x02, 0x90, 0x03, 0x04]).2.capacity =
          (freshMidiMap 1).capacity ∧
        DecInv (ProcessInputBuffer 0 freshDecState (freshMidiMap 1)
          [0x90, 0x01, 0x02, 0x90, 0x03, 0x04]).1 ∧
        (∀ e ∈ (ProcessInputBuffer 0 freshDecState (freshMidiMap 1)
            [0x90, 0x01, 0x02, 0x90, 0x03, 0x04]).2.events,
          e ∈ (freshMidiMap 1).events ∨
            (1 ≤ e.size ∧ e.size ≤ MAX_MIDI_EVENT_SIZE)) ∧
        ∀ cc d0 d1, (freshMidiMap 1).capacity ≤
            (freshMidiMap 1).events.length →
          MidiPut freshDecState (freshMidiMap 1) 0 cc d0 d1 =
            freshMidiMap 1) :=
  ⟨by decide, by decide,
    midi_event_buffer_safety freshDecState (freshMidiMap 1) 0
      [0x90, 0x01, 0x02, 0x90, 0x03, 0x04] (by decide) (by decide)⟩

lemma lor_of_and_disjoint {i : ℕ} (a b : ℕ) (h : b < 2 ^ i) :
    2 ^ i * a + b = 2 ^ i * a ||| b :=
  Nat.mul_add_lt_is_or h a

lemma shiftLeft_low_add_high (p0 p1 : ℕ) (h0 : p0 < 256) :
    (p0 <<< 8) + (p1 <<< 16) = (p0 <<< 8) ||| (p1 <<< 16) := by
  have hA : p0 <<< 8 < 2 ^ 16 := by
    rw [Nat.shiftLeft_eq]
    norm_num
    omega
  rw [Nat.shiftLeft_eq p1 16, Nat.lor_comm, Nat.mul_comm p1 (2 ^ 16),
    ← lor_of_and_disjoint _ _ hA]
  ring

/-- Claim C6: for byte values `p0 p1 p2 < 256` the source expression
`((p0 << 8) + (p1 << 16)) | (p2 << 24)` of `CopyCaptureS24_3Le`,
evaluated in 32-bit arithmetic, coincides with the spec's normative
pure bit-OR form, and therefore the decoded sample `scale * v` is the
same under both readings. -/
theorem s24_3le_source_word_matches_spec (p0 p1 p2 : ℕ) (h0 : p0 < 256)
    (h1 : p1 < 256) (h2 : p2 < 256) :
    CaptureS24_3LeWordSource p0 p1 p2 = CaptureS24_3LeWordSpec p0 p1 p2 ∧
      CopyCaptureS24_3LeSample p0 p1 p2 =
        (fromNat32 (CaptureS24_3LeWordSpec p0 p1 p2) : ℚ) *
          (1 / 2147483648) := by
  have key := shiftLeft_low_add_high p0 p1 h0
  constructor
  · unfold CaptureS24_3LeWordSource CaptureS24_3LeWordSpec
    rw [key]
  · unfold CopyCaptureS24_3LeSample CaptureS24_3LeWordSource
      CaptureS24_3LeWordSpec
    rw [key]

/-- Witness for C6 at the bytes `0x12 0x34 0xAB`. -/
theorem s24_3le_source_word_matches_spec_witness :
    (0x12 : ℕ) < 256 ∧ (0x34 : ℕ) < 256 ∧ (0xAB : ℕ) < 256 ∧
      (CaptureS24_3LeWordSource 0x12 0x34 0xAB =
          CaptureS24_3LeWordSpec 0x12 0x34 0xAB ∧
        CopyCaptureS24_3LeSample 0x12 0x34 0xAB =
          (fromNat32 (CaptureS24_3LeWordSpec 0x12 0x34 0xAB) : ℚ) *
            (1 / 2147483648)) :=
  ⟨by decide, by decide, by decide,
    s24_3le_source_word_matches_spec 0x12 0x34 0xAB (by decide) (by decide)
      (by decide)⟩

/-- Claim C7 as stated is false at fully defined inputs: the S32 and
S24-packed-3 encode scale `std::numeric_limits<int32_t>::max()` rounds
to `2147483648.0f` in binary32, so encoding `-1.5` (clamped to `-1.0`)
stores `-2147483648` for S32 and the 24-bit value `-8388608` for
packed-3, not the negated format maxima `-2147483647` and `-8388607`. -/
theorem encode_saturation_counterexample :
    encodeValue .s32Le (-(3 / 2)) = some (-2147483648) ∧
      formatMaxInt .s32Le = 2147483647 ∧
      ¬ encodeValue .s32Le (-(3 / 2)) = some (-formatMaxInt .s32Le) ∧
      encodeValue .s24_3Le (-(3 / 2)) = some (-8388608) ∧
      ¬ encodeValue .s24_3Le (-(3 / 2)) = some (-formatMaxInt .s24_3Le) := by
  decide

lemma clampF_idem (x : ℚ) : clampF (clampF x) = clampF x := by
  unfold clampF
  split_ifs <;> first | rfl | linarith

lemma truncToZero_of_nonneg (q : ℚ) (h : 0 ≤ q) : truncToZero q = ⌊q⌋ := by
  rw [Rat.floor_def]
  exact Int.tdiv_eq_ediv (Rat.num_nonneg.2 h) (by positivity)

lemma truncToZero_of_nonpos (q : ℚ) (h : q ≤ 0) : truncToZero q = ⌈q⌉ := by
  have h1 : (⌈q⌉ : ℤ) = -⌊-q⌋ := by
    conv_lhs => rw [← neg_neg q]
    rw [Int.ceil_neg]
  have h2 : 0 ≤ -q.num := by
    rw [← Rat.num_neg_eq_neg_num]
    exact Rat.num_nonneg.2 (neg_nonneg.2 h)
  rw [h1, Rat.floor_def, Rat.num_neg_eq_neg_num, Rat.den_neg_eq_den,
    ← Int.tdiv_eq_ediv h2 (by positivity), Int.neg_tdiv, neg_neg]
  rfl

/-- Claim C7 (amended): every integer playback encoder clamps its input
to `[-1, 1]` before scaling, and every defined integer conversion
truncates toward zero.  The S16 and S24-in-4 scales (`32767` and
`0x00FFFFFF`) are exact in binary32, and for those formats `+1.5`
encodes to the format maximum and `-1.5` to its negation, as claimed.
The S32 and S24-packed-3 scale `int32_max` rounds to `2147483648.0f`:
for those formats `-1.5` encodes to the negated maximum minus one
(`-2147483648` for S32, stored 24-bit `-8388608` for packed-3), and
`+1.5` scales to `+2^31`, whose int32 conversion is undefined
behaviour (no defined result). -/
theorem encode_saturation_amended :
    (∀ (F : IntPcmFormat) (x : ℚ),
        encodeValue F x = encodeValue F (clampF x)) ∧
      (∀ F : IntPcmFormat, ¬ HasRoundedScale F →
        encodeValue F (3 / 2) = some (formatMaxInt F)) ∧
      (∀ F : IntPcmFormat, HasRoundedScale F →
        encodeValue F (3 / 2) = none) ∧
      (∀ F : IntPcmFormat, ¬ HasRoundedScale F →
        encodeValue F (-(3 / 2)) = some (-formatMaxInt F)) ∧
      (∀ F : IntPcmFormat, HasRoundedScale F →
        encodeValue F (-(3 / 2)) = some (-formatMaxInt F - 1)) ∧
      (∀ q : ℚ, 0 ≤ q → truncToZero q = ⌊q⌋) ∧
      (∀ q : ℚ, q < 0 → truncToZero q = ⌈q⌉) := by
  refine ⟨?_, by decide, by decide, by decide, by decide, ?_, ?_⟩
  · intro F x
    cases F <;>
      simp only [encodeValue, CopyPlaybackS24_3LeSample,
        CopyPlaybackS24_3BeSample, clampF_idem]
  · intro q h
    exact truncToZero_of_nonneg q h
  · intro q h
    exact truncToZero_of_nonpos q h.le

/-- Witness for C7 at the hypotheses' concrete instances. -/
theorem encode_saturation_amended_witness :
    (¬ HasRoundedScale .s16Le ∧
        encodeValue .s16Le (3 / 2) = some (formatMaxInt .s16Le)) ∧
      (HasRoundedScale .s32Le ∧ encodeValue .s32Le (3 / 2) = none) ∧
      (¬ HasRoundedScale .s24Le ∧
        encodeValue .s24Le (-(3 / 2)) = some (-formatMaxInt .s24Le)) ∧
      (HasRoundedScale .s24_3Le ∧
        encodeValue .s24_3Le (-(3 / 2)) =
          some (-formatMaxInt .s24_3Le - 1)) ∧
      ((0 : ℚ) ≤ 1 / 2 ∧ truncToZero (1 / 2) = ⌊(1 / 2 : ℚ)⌋) ∧
      ((-1 / 2 : ℚ) < 0 ∧ truncToZero (-1 / 2) = ⌈(-1 / 2 : ℚ)⌉) :=
  ⟨⟨by decide, encode_saturation_amended.2.1 .s16Le (by decide)⟩,
    ⟨by decide, encode_saturation_amended.2.2.1 .s32Le (by decide)⟩,
    ⟨by decide, encode_saturation_amended.2.2.2.1 .s24Le (by decide)⟩,
    ⟨by decide, encode_saturation_amended.2.2.2.2.1 .s24_3Le (by decide)⟩,
    ⟨by norm_num,
      encode_saturation_amended.2.2.2.2.2.1 (1 / 2) (by norm_num)⟩,
    ⟨by norm_num,
      encode_saturation_amended.2.2.2.2.2.2 (-1 / 2) (by norm_num)⟩⟩

lemma clampF_eq_self (x : ℚ) (h1 : -1 ≤ x) (h2 : x ≤ 1) : clampF x = x := by
  unfold clampF
  split_ifs <;> first | rfl | linarith

lemma truncToZero_scale_range (K x : ℚ) (hK : 0 ≤ K) (h1 : -1 ≤ x)
    (h2 : x ≤ 1) :
    -K ≤ (truncToZero (K * x) : ℚ) ∧ (truncToZero (K * x) : ℚ) ≤ K := by
  rcases le_or_lt 0 x with hx | hx
  · have hq : 0 ≤ K * x := mul_nonneg hK hx
    rw [truncToZero_of_nonneg _ hq]
    have h3 : (⌊K * x⌋ : ℚ) ≤ K * x := Int.floor_le _
    have h4 : (0 : ℚ) ≤ (⌊K * x⌋ : ℚ) := by exact_mod_cast Int.floor_nonneg.2 hq
    constructor <;> nlinarith
  · have hq : K * x ≤ 0 := mul_nonpos_of_nonneg_of_nonpos hK hx.le
    rw [truncToZero_of_nonpos _ hq]
    have h3 : (K * x : ℚ) ≤ (⌈K * x⌉ : ℚ) := Int.le_ceil _
    have h4 : ((⌈K * x⌉ : ℚ)) ≤ 0 := by
      have h5 : (⌈K * x⌉ : ℤ) ≤ 0 := Int.ceil_le.2 (by exact_mod_cast hq)
      exact_mod_cast h5
    constructor <;> nlinarith

lemma trunc_scale_err (K x : ℚ) (hK : 1 ≤ K) (h1 : -1 ≤ x) (h2 : x ≤ 1) :
    |(truncToZero (K * x) : ℚ) * (1 / (K + 1)) - x| < 2 / (K + 1) := by
  have hD : (0 : ℚ) < K + 1 := by linarith
  have hne : K + 1 ≠ 0 := ne_of_gt hD
  have hmain : -2 < (truncToZero (K * x) : ℚ) - (K * x + x) ∧
      (truncToZero (K * x) : ℚ) - (K * x + x) < 2 := by
    rcases le_or_lt 0 x with hx | hx
    · have hq : 0 ≤ K * x := mul_nonneg (by linarith) hx
      rw [truncToZero_of_nonneg _ hq]
      have hf1 : (⌊K * x⌋ : ℚ) ≤ K * x := Int.floor_le _
      have hf2 : K * x - 1 < (⌊K * x⌋ : ℚ) := Int.sub_one_lt_floor _
      constructor <;> linarith
    · have hq : K * x ≤ 0 :=
        mul_nonpos_of_nonneg_of_nonpos (by linarith) hx.le
      rw [truncToZero_of_nonpos _ hq]
      have hc1 : (K * x : ℚ) ≤ (⌈K * x⌉ : ℚ) := Int.le_ceil _
      have hc2 : ((⌈K * x⌉ : ℚ)) < K * x + 1 := Int.ceil_lt_add_one _
      constructor <;> linarith
  have heq : (truncToZero (K * x) : ℚ) * (1 / (K + 1)) - x =
      ((truncToZero (K * x) : ℚ) - (K * x + x)) / (K + 1) := by
    field_simp
    ring
  rw [heq, abs_div, abs_of_pos hD]
  rw [div_lt_div_iff hD hD]
  have habs : |(truncToZero (K * x) : ℚ) - (K * x + x)| < 2 :=
    abs_lt.2 hmain
  nlinarith [abs_nonneg ((truncToZero (K * x) : ℚ) - (K * x + x))]

lemma wrap16_eq_self (v : ℤ) (hlo : -32768 ≤ v) (hhi : v < 32768) :
    wrap16 v = v := by
  unfold wrap16
  omega

lemma wrap32_eq_self (v : ℤ) (hlo : -2147483648 ≤ v) (hhi : v < 2147483648) :
    wrap32 v = v := by
  unfold wrap32
  omega

lemma toNat16_lt (v : ℤ) : toNat16 v < 65536 := by
  unfold toNat16
  omega

lemma toNat32_lt (v : ℤ) : toNat32 v < 4294967296 := by
  unfold toNat32
  omega

lemma fromNat16_toNat16 (v : ℤ) (hlo : -32768 ≤ v) (hhi : v < 32768) :
    fromNat16 (toNat16 v) = v := by
  unfold fromNat16 toNat16
  split_ifs <;> omega

lemma fromNat32_toNat32 (v : ℤ) (hlo : -2147483648 ≤ v)
    (hhi : v < 2147483648) : fromNat32 (toNat32 v) = v := by
  unfold fromNat32 toNat32
  split_ifs <;> omega

lemma toNat16_fromNat16 (n : ℕ) (h : n < 65536) :
    toNat16 (fromNat16 n) = n := by
  unfold toNat16 fromNat16
  split_ifs <;> omega

lemma toNat32_fromNat32 (n : ℕ) (h : n < 4294967296) :
    toNat32 (fromNat32 n) = n := by
  unfold toNat32 fromNat32
  split_ifs <;> omega

lemma fromNat16_mem (n : ℕ) (h : n < 65536) :
    -32768 ≤ fromNat16 n ∧ fromNat16 n < 32768 := by
  unfold fromNat16
  split_ifs <;> omega

lemma fromNat32_mem (n : ℕ) (h : n < 4294967296) :
    -2147483648 ≤ fromNat32 n ∧ fromNat32 n < 2147483648 := by
  unfold fromNat32
  split_ifs <;> omega

lemma two_byte_lor (a b : ℕ) (hb : b < 256) :
    (a * 2 ^ 8) ||| b = a * 2 ^ 8 + b := by
  have h := Nat.mul_add_lt_is_or (show b < 2 ^ 8 by omega) a
  rw [Nat.mul_comm a (2 ^ 8), ← h]

lemma four_byte_lor (a b c d : ℕ) (hb : b < 256) (hc : c < 256)
    (hd : d < 256) :
    (a * 2 ^ 24) ||| (b * 2 ^ 16) ||| (c * 2 ^ 8) ||| d =
      a * 2 ^ 24 + b * 2 ^ 16 + c * 2 ^ 8 + d := by
  have m1 : (a * 2 ^ 24) ||| (b * 2 ^ 16) = a * 2 ^ 24 + b * 2 ^ 16 := by
    have h := Nat.mul_add_lt_is_or (show b * 2 ^ 16 < 2 ^ 24 by omega) a
    rw [Nat.mul_comm a (2 ^ 24), ← h]
  have m2 : (a * 2 ^ 24 + b * 2 ^ 16) ||| (c * 2 ^ 8) =
      a * 2 ^ 24 + b * 2 ^ 16 + c * 2 ^ 8 := by
    have h := Nat.mul_add_lt_is_or (show c * 2 ^ 8 < 2 ^ 16 by omega)
      (a * 2 ^ 8 + b)
    rw [show a * 2 ^ 24 + b * 2 ^ 16 = 2 ^ 16 * (a * 2 ^ 8 + b) by ring, ← h]
  have m3 : (a * 2 ^ 24 + b * 2 ^ 16 + c * 2 ^ 8) ||| d =
      a * 2 ^ 24 + b * 2 ^ 16 + c * 2 ^ 8 + d := by
    have h := Nat.mul_add_lt_is_or (show d < 2 ^ 8 by omega)
      (a * 2 ^ 16 + b * 2 ^ 8 + c)
    rw [show a * 2 ^ 24 + b * 2 ^ 16 + c * 2 ^ 8 =
      2 ^ 8 * (a * 2 ^ 16 + b * 2 ^ 8 + c) by ring, ← h]
  rw [m1, m2, m3]

lemma endianSwap16_eq (n : ℕ) :
    EndianSwap16 n = n % 256 * 256 + n / 256 % 256 := by
  unfold EndianSwap16
  rw [Nat.shiftLeft_eq, Nat.shiftRight_eq_div_pow,
    two_byte_lor _ _ (Nat.mod_lt _ (by norm_num))]
  norm_num

lemma endianSwap16_lt (n : ℕ) (h : n < 65536) : EndianSwap16 n < 65536 := by
  rw [endianSwap16_eq]
  omega

lemma endianSwap16_invol (n : ℕ) (h : n < 65536) :
    EndianSwap16 (EndianSwap16 n) = n := by
  rw [endianSwap16_eq, endianSwap16_eq]
  have h1 : (n % 256 * 256 + n / 256 % 256) % 256 = n / 256 % 256 := by omega
  have h2 : (n % 256 * 256 + n / 256 % 256) / 256 = n % 256 := by omega
  rw [h1, h2]
  omega

lemma endianSwap32_eq (n : ℕ) :
    EndianSwap32 n = n % 256 * 16777216 + n / 256 % 256 * 65536 +
      n / 65536 % 256 * 256 + n / 16777216 % 256 := by
  unfold EndianSwap32
  rw [Nat.shiftLeft_eq, Nat.shiftLeft_eq, Nat.shiftLeft_eq,
    Nat.shiftRight_eq_div_pow, Nat.shiftRight_eq_div_pow,
    Nat.shiftRight_eq_div_pow,
    four_byte_lor _ _ _ _ (Nat.mod_lt _ (by norm_num))
      (Nat.mod_lt _ (by norm_num)) (Nat.mod_lt _ (by norm_num))]
  norm_num

lemma endianSwap32_lt (n : ℕ) (h : n < 4294967296) :
    EndianSwap32 n < 4294967296 := by
  rw [endianSwap32_eq]
  omega

lemma four_byte_swap_invol (a b c d : ℕ) (ha : a < 256) (hb : b < 256)
    (hc : c < 256) (hd : d < 256) :
    (a * 16777216 + b * 65536 + c * 256 + d) % 256 * 16777216 +
        (a * 16777216 + b * 65536 + c * 256 + d) / 256 % 256 * 65536 +
        (a * 16777216 + b * 65536 + c * 256 + d) / 65536 % 256 * 256 +
        (a * 16777216 + b * 65536 + c * 256 + d) / 16777216 % 256 =
      d * 16777216 + c * 65536 + b * 256 + a := by
  omega

lemma endianSwap32_invol (n : ℕ) (h : n < 4294967296) :
    EndianSwap32 (EndianSwap32 n) = n := by
  rw [endianSwap32_eq, endianSwap32_eq]
  rw [four_byte_swap_invol (n % 256) (n / 256 % 256) (n / 65536 % 256)
    (n / 16777216 % 256) (Nat.mod_lt _ (by norm_num))
    (Nat.mod_lt _ (by norm_num)) (Nat.mod_lt _ (by norm_num))
    (Nat.mod_lt _ (by norm_num))]
  omega

lemma endianSwapI16_mem (v : ℤ) :
    -32768 ≤ EndianSwapI16 v ∧ EndianSwapI16 v < 32768 := by
  unfold EndianSwapI16
  exact fromNat16_mem _ (endianSwap16_lt _ (toNat16_lt v))

lemma endianSwapI16_invol (v : ℤ) (hlo : -32768 ≤ v) (hhi : v < 32768) :
    EndianSwapI16 (EndianSwapI16 v) = v := by
  unfold EndianSwapI16
  rw [toNat16_fromNat16 _ (endianSwap16_lt _ (toNat16_lt v)),
    endianSwap16_invol _ (toNat16_lt v), fromNat16_toNat16 _ hlo hhi]

lemma endianSwapI32_mem (v : ℤ) :
    -2147483648 ≤ EndianSwapI32 v ∧ EndianSwapI32 v < 2147483648 := by
  unfold EndianSwapI32
  exact fromNat32_mem _ (endianSwap32_lt _ (toNat32_lt v))

lemma endianSwapI32_invol (v : ℤ) (hlo : -2147483648 ≤ v)
    (hhi : v < 2147483648) : EndianSwapI32 (EndianSwapI32 v) = v := by
  unfold EndianSwapI32
  rw [toNat32_fromNat32 _ (endianSwap32_lt _ (toNat32_lt v)),
    endianSwap32_invol _ (toNat32_lt v), fromNat32_toNat32 _ hlo hhi]

lemma s24_3_word_eq (i : ℤ) (hlo : -2147483648 ≤ i) (hhi : i < 2147483648) :
    fromNat32 ((((byteOfInt i 8 <<< 8) + (byteOfInt i 16 <<< 16)) |||
        (byteOfInt i 24 <<< 24)) % 4294967296) = 256 * (i / 256) := by
  have e0 : (byteOfInt i 8 : ℤ) = i / 2 ^ 8 % 256 :=
    Int.toNat_of_nonneg (Int.emod_nonneg _ (by norm_num))
  have e1 : (byteOfInt i 16 : ℤ) = i / 2 ^ 16 % 256 :=
    Int.toNat_of_nonneg (Int.emod_nonneg _ (by norm_num))
  have e2 : (byteOfInt i 24 : ℤ) = i / 2 ^ 24 % 256 :=
    Int.toNat_of_nonneg (Int.emod_nonneg _ (by norm_num))
  have f0 := Int.emod_lt_of_pos (i / 2 ^ 8) (show (0 : ℤ) < 256 by norm_num)
  have f1 := Int.emod_lt_of_pos (i / 2 ^ 16) (show (0 : ℤ) < 256 by norm_num)
  have f2 := Int.emod_lt_of_pos (i / 2 ^ 24) (show (0 : ℤ) < 256 by norm_num)
  have b0 : byteOfInt i 8 < 256 := by omega
  have b1 : byteOfInt i 16 < 256 := by omega
  have b2 : byteOfInt i 24 < 256 := by omega
  rw [Nat.shiftLeft_eq, Nat.shiftLeft_eq, Nat.shiftLeft_eq, Nat.lor_comm,
    Nat.mul_comm (byteOfInt i 24) (2 ^ 24),
    ← Nat.mul_add_lt_is_or
      (show byteOfInt i 8 * 2 ^ 8 + byteOfInt i 16 * 2 ^ 16 < 2 ^ 24 by omega)
      (byteOfInt i 24)]
  unfold fromNat32
  rw [Nat.mod_eq_of_lt (by omega)]
  split_ifs with hcase
  · push_cast
    rw [e0, e1, e2]
    omega
  · push_cast
    rw [e0, e1, e2]
    omega

lemma truncToZero_err (q : ℚ) : |(truncToZero q : ℚ) - q| < 1 := by
  rcases le_or_lt 0 q with h | h
  · rw [truncToZero_of_nonneg _ h, abs_lt]
    have hf1 : (⌊q⌋ : ℚ) ≤ q := Int.floor_le _
    have hf2 : q - 1 < (⌊q⌋ : ℚ) := Int.sub_one_lt_floor _
    constructor <;> linarith
  · rw [truncToZero_of_nonpos _ h.le, abs_lt]
    have hc1 : (q : ℚ) ≤ (⌈q⌉ : ℚ) := Int.le_ceil _
    have hc2 : ((⌈q⌉ : ℚ)) < q + 1 := Int.ceil_lt_add_one _
    constructor <;> linarith

lemma truncToZero_scale_range_lt (K x : ℚ) (hK : 0 < K) (h1 : -1 ≤ x)
    (h2 : x < 1) :
    -K ≤ (truncToZero (K * x) : ℚ) ∧ (truncToZero (K * x) : ℚ) < K := by
  rcases le_or_lt 0 x with hx | hx
  · have hq : 0 ≤ K * x := mul_nonneg hK.le hx
    rw [truncToZero_of_nonneg _ hq]
    have h3 : (⌊K * x⌋ : ℚ) ≤ K * x := Int.floor_le _
    have h4 : (0 : ℚ) ≤ (⌊K * x⌋ : ℚ) := by
      exact_mod_cast Int.floor_nonneg.2 hq
    have h5 : K * x < K := by nlinarith
    constructor <;> linarith
  · have hq : K * x ≤ 0 := mul_nonpos_of_nonneg_of_nonpos hK.le hx.le
    rw [truncToZero_of_nonpos _ hq]
    have h3 : (K * x : ℚ) ≤ (⌈K * x⌉ : ℚ) := Int.le_ceil _
    have h4 : ((⌈K * x⌉ : ℚ)) ≤ 0 := by
      have h5 : (⌈K * x⌉ : ℤ) ≤ 0 := Int.ceil_le.2 (by exact_mod_cast hq)
      exact_mod_cast h5
    have h6 : -K ≤ K * x := by nlinarith
    constructor <;> linarith

lemma trunc_scale_exact_err (x : ℚ) :
    |(truncToZero (2147483648 * x) : ℚ) * (1 / 2147483648) - x| <
      1 / 25000 := by
  have htr := truncToZero_err ((2147483648 : ℚ) * x)
  have heq : (truncToZero ((2147483648 : ℚ) * x) : ℚ) * (1 / 2147483648) -
      x = ((truncToZero ((2147483648 : ℚ) * x) : ℚ) - 2147483648 * x) /
        2147483648 := by
    field_simp
  rw [heq, abs_div, abs_of_pos (show (0 : ℚ) < 2147483648 by norm_num),
    div_lt_div_iff (by norm_num) (by norm_num)]
  nlinarith [abs_nonneg
    ((truncToZero ((2147483648 : ℚ) * x) : ℚ) - 2147483648 * x), htr]

lemma trunc_scale_err_packed (x : ℚ) :
    |((256 * (truncToZero (2147483648 * x) / 256) : ℤ) : ℚ) *
        (1 / 2147483648) - x| < 1 / 25000 := by
  have habs := abs_lt.1 (truncToZero_err ((2147483648 : ℚ) * x))
  have hdiv1 : 256 * (truncToZero ((2147483648 : ℚ) * x) / 256) ≤
      truncToZero ((2147483648 : ℚ) * x) := by omega
  have hdiv2 : truncToZero ((2147483648 : ℚ) * x) <
      256 * (truncToZero ((2147483648 : ℚ) * x) / 256) + 256 := by omega
  have hq1 : ((256 * (truncToZero ((2147483648 : ℚ) * x) / 256) : ℤ) : ℚ) ≤
      (truncToZero ((2147483648 : ℚ) * x) : ℚ) := by exact_mod_cast hdiv1
  have hq2 : (truncToZero ((2147483648 : ℚ) * x) : ℚ) <
      ((256 * (truncToZero ((2147483648 : ℚ) * x) / 256) : ℤ) : ℚ) + 256 := by
    exact_mod_cast hdiv2
  have heq : ((256 * (truncToZero ((2147483648 : ℚ) * x) / 256) : ℤ) : ℚ) *
      (1 / 2147483648) - x =
      (((256 * (truncToZero ((2147483648 : ℚ) * x) / 256) : ℤ) : ℚ) -
        2147483648 * x) / 2147483648 := by
    field_simp
  rw [heq, abs_div, abs_of_pos (show (0 : ℚ) < 2147483648 by norm_num),
    div_lt_div_iff (by norm_num) (by norm_num)]
  have hmain : -257 <
      ((256 * (truncToZero ((2147483648 : ℚ) * x) / 256) : ℤ) : ℚ) -
        2147483648 * x ∧
      ((256 * (truncToZero ((2147483648 : ℚ) * x) / 256) : ℤ) : ℚ) -
        2147483648 * x < 257 := by
    constructor <;> linarith
  nlinarith [abs_nonneg
    (((256 * (truncToZero ((2147483648 : ℚ) * x) / 256) : ℤ) : ℚ) -
      2147483648 * x), abs_lt.2 hmain]

lemma roundTrip_s16Le_eq (x : ℚ) (h1 : -1 ≤ x) (h2 : x ≤ 1) :
    roundTrip .s16Le x =
      some ((truncToZero (32767 * x) : ℚ) * (1 / 32768)) := by
  have hr := truncToZero_scale_range 32767 x (by norm_num) h1 h2
  have ht1 : -32767 ≤ truncToZero ((32767 : ℚ) * x) := by exact_mod_cast hr.1
  have ht2 : truncToZero ((32767 : ℚ) * x) ≤ 32767 := by exact_mod_cast hr.2
  simp only [roundTrip, CopyCaptureS16LeSample, CopyPlaybackS16LeSample]
  rw [clampF_eq_self x h1 h2, wrap16_eq_self _ (by omega) (by omega),
    fromNat16_toNat16 _ (by omega) (by omega)]

lemma roundTrip_s16Be_eq (x : ℚ) (h1 : -1 ≤ x) (h2 : x ≤ 1) :
    roundTrip .s16Be x =
      some ((truncToZero (32767 * x) : ℚ) * (1 / 32768)) := by
  have hr := truncToZero_scale_range 32767 x (by norm_num) h1 h2
  have ht1 : -32767 ≤ truncToZero ((32767 : ℚ) * x) := by exact_mod_cast hr.1
  have ht2 : truncToZero ((32767 : ℚ) * x) ≤ 32767 := by exact_mod_cast hr.2
  simp only [roundTrip, CopyCaptureS16BeSample, CopyPlaybackS16BeSample]
  rw [clampF_eq_self x h1 h2, wrap16_eq_self _ (by omega) (by omega),
    fromNat16_toNat16 _ (endianSwapI16_mem _).1 (endianSwapI16_mem _).2,
    endianSwapI16_invol _ (by omega) (by omega)]

lemma roundTrip_s32Le_eq (x : ℚ) (h1 : -1 ≤ x) (h2 : x < 1) :
    roundTrip .s32Le x =
      some ((truncToZero (2147483648 * x) : ℚ) * (1 / 2147483648)) := by
  have hr := truncToZero_scale_range_lt 2147483648 x (by norm_num) h1 h2
  have ht1 : -2147483648 ≤ truncToZero ((2147483648 : ℚ) * x) := by
    exact_mod_cast hr.1
  have ht2 : truncToZero ((2147483648 : ℚ) * x) < 2147483648 := by
    exact_mod_cast hr.2
  simp only [roundTrip, CopyPlaybackS32LeSample, CastToInt32]
  rw [clampF_eq_self x h1 h2.le, if_pos ⟨ht1, ht2⟩]
  simp only [Option.map_some', CopyCaptureS32LeSample]
  rw [fromNat32_toNat32 _ (by omega) (by omega)]

lemma roundTrip_s32Be_eq (x : ℚ) (h1 : -1 ≤ x) (h2 : x < 1) :
    roundTrip .s32Be x =
      some ((truncToZero (2147483648 * x) : ℚ) * (1 / 2147483648)) := by
  have hr := truncToZero_scale_range_lt 2147483648 x (by norm_num) h1 h2
  have ht1 : -2147483648 ≤ truncToZero ((2147483648 : ℚ) * x) := by
    exact_mod_cast hr.1
  have ht2 : truncToZero ((2147483648 : ℚ) * x) < 2147483648 := by
    exact_mod_cast hr.2
  simp only [roundTrip, CopyPlaybackS32BeSample, CastToInt32]
  rw [clampF_eq_self x h1 h2.le, if_pos ⟨ht1, ht2⟩]
  simp only [Option.map_some', CopyCaptureS32BeSample]
  rw [fromNat32_toNat32 _ (endianSwapI32_mem _).1 (endianSwapI32_mem _).2,
    endianSwapI32_invol _ (by omega) (by omega)]

lemma roundTrip_s24Le_eq (x : ℚ) (h1 : -1 ≤ x) (h2 : x ≤ 1) :
    roundTrip .s24Le x =
      some ((truncToZero (16777215 * x) : ℚ) * (1 / 16777216)) := by
  have hr := truncToZero_scale_range 16777215 x (by norm_num) h1 h2
  have ht1 : -16777215 ≤ truncToZero ((16777215 : ℚ) * x) := by
    exact_mod_cast hr.1
  have ht2 : truncToZero ((16777215 : ℚ) * x) ≤ 16777215 := by
    exact_mod_cast hr.2
  simp only [roundTrip, CopyCaptureS24LeSample, CopyPlaybackS24LeSample]
  rw [clampF_eq_self x h1 h2, wrap32_eq_self _ (by omega) (by omega),
    fromNat32_toNat32 _ (by omega) (by omega)]

lemma roundTrip_s24Be_eq (x : ℚ) (h1 : -1 ≤ x) (h2 : x ≤ 1) :
    roundTrip .s24Be x =
      some ((truncToZero (16777215 * x) : ℚ) * (1 / 16777216)) := by
  have hr := truncToZero_scale_range 16777215 x (by norm_num) h1 h2
  have ht1 : -16777215 ≤ truncToZero ((16777215 : ℚ) * x) := by
    exact_mod_cast hr.1
  have ht2 : truncToZero ((16777215 : ℚ) * x) ≤ 16777215 := by
    exact_mod_cast hr.2
  simp only [roundTrip, CopyCaptureS24BeSample, CopyPlaybackS24BeSample]
  rw [clampF_eq_self x h1 h2, wrap32_eq_self _ (by omega) (by omega),
    fromNat32_toNat32 _ (endianSwapI32_mem _).1 (endianSwapI32_mem _).2,
    endianSwapI32_invol _ (by omega) (by omega)]

lemma roundTrip_s24_3Le_eq (x : ℚ) (h1 : -1 ≤ x) (h2 : x < 1) :
    roundTrip .s24_3Le x =
      some (((256 * (truncToZero (2147483648 * x) / 256) : ℤ) : ℚ) *
        (1 / 2147483648)) := by
  have hr := truncToZero_scale_range_lt 2147483648 x (by norm_num) h1 h2
  have ht1 : -2147483648 ≤ truncToZero ((2147483648 : ℚ) * x) := by
    exact_mod_cast hr.1
  have ht2 : truncToZero ((2147483648 : ℚ) * x) < 2147483648 := by
    exact_mod_cast hr.2
  simp only [roundTrip, CopyPlaybackS24_3LeSample, CastToInt32]
  rw [clampF_eq_self x h1 h2.le, if_pos ⟨ht1, ht2⟩]
  simp only [Option.map_some', CopyCaptureS24_3LeSample,
    CaptureS24_3LeWordSource]
  rw [s24_3_word_eq _ (by omega) (by omega)]

lemma roundTrip_s24_3Be_eq (x : ℚ) (h1 : -1 ≤ x) (h2 : x < 1) :
    roundTrip .s24_3Be x =
      some (((256 * (truncToZero (2147483648 * x) / 256) : ℤ) : ℚ) *
        (1 / 2147483648)) := by
  have hr := truncToZero_scale_range_lt 2147483648 x (by norm_num) h1 h2
  have ht1 : -2147483648 ≤ truncToZero ((2147483648 : ℚ) * x) := by
    exact_mod_cast hr.1
  have ht2 : truncToZero ((2147483648 : ℚ) * x) < 2147483648 := by
    exact_mod_cast hr.2
  simp only [roundTrip, CopyPlaybackS24_3BeSample, CastToInt32]
  rw [clampF_eq_self x h1 h2.le, if_pos ⟨ht1, ht2⟩]
  simp only [Option.map_some', CopyCaptureS24_3BeSample]
  rw [s24_3_word_eq _ (by omega) (by omega)]

/-- Claim C2 as stated is false for the 16-bit formats: at the in-range
sample `x = 7/10` the S16 round trip yields `2867/4096`, whose error
`1/20480` exceeds the specified bound `2⁻¹⁵`. -/
theorem codec_round_trip_spec_counterexample :
    (-1 : ℚ) ≤ 7 / 10 ∧ (7 / 10 : ℚ) ≤ 1 ∧
      roundTrip .s16Le (7 / 10) = some (2867 / 4096) ∧
      ¬ |(2867 / 4096 : ℚ) - 7 / 10| < specRoundTripBound .s16Le := by
  refine ⟨by norm_num, by norm_num, by decide, by decide⟩

/-- Claim C2 (amended): for every supported `(format, endianness)` codec
pair and every sample `x ∈ [-1, 1]`, whenever decode-after-encode is
defined it differs from `x` by less than `4×10⁻⁵` for the float, 24- and
32-bit formats, and by less than `2⁻¹⁴` (amended from the claimed
`2⁻¹⁵`) for the 16-bit formats; and it is defined for every `x < 1`
(at `x = 1` the S32 and S24-packed-3 float-to-int conversion is
undefined behaviour, modelled as `none`).  Float arithmetic is modelled
as exact rational arithmetic. -/
theorem codec_round_trip_amended (F : PcmFormat) (x : ℚ) (h1 : -1 ≤ x)
    (h2 : x ≤ 1) :
    (∀ y, roundTrip F x = some y → |y - x| < roundTripBound F) ∧
      (x < 1 → (roundTrip F x).isSome) := by
  have e16 : |(truncToZero ((32767 : ℚ) * x) : ℚ) * (1 / 32768) - x| <
      1 / 16384 := by
    have h := trunc_scale_err 32767 x (by norm_num) h1 h2
    norm_num at h ⊢
    exact h
  have e24 : |(truncToZero ((16777215 : ℚ) * x) : ℚ) * (1 / 16777216) - x| <
      1 / 25000 := by
    have h := trunc_scale_err 16777215 x (by norm_num) h1 h2
    norm_num at h ⊢
    exact h.trans (by norm_num)
  constructor
  · intro y hy
    cases F with
    | floatLe =>
      simp only [roundTrip] at hy
      obtain rfl := Option.some.inj hy
      simp only [roundTripBound, sub_self, abs_zero]
      norm_num
    | floatBe =>
      simp only [roundTrip] at hy
      obtain rfl := Option.some.inj hy
      simp only [roundTripBound, sub_self, abs_zero]
      norm_num
    | s16Le =>
      rw [roundTrip_s16Le_eq x h1 h2] at hy
      obtain rfl := Option.some.inj hy
      simpa only [roundTripBound] using e16
    | s16Be =>
      rw [roundTrip_s16Be_eq x h1 h2] at hy
      obtain rfl := Option.some.inj hy
      simpa only [roundTripBound] using e16
    | s32Le =>
      rcases lt_or_eq_of_le h2 with hx1 | hx1
      · rw [roundTrip_s32Le_eq x h1 hx1] at hy
        obtain rfl := Option.some.inj hy
        simpa only [roundTripBound] using trunc_scale_exact_err x
      · subst hx1
        rw [show roundTrip PcmFormat.s32Le 1 = none from by decide] at hy
        exact Option.noConfusion hy
    | s32Be =>
      rcases lt_or_eq_of_le h2 with hx1 | hx1
      · rw [roundTrip_s32Be_eq x h1 hx1] at hy
        obtain rfl := Option.some.inj hy
        simpa only [roundTripBound] using trunc_scale_exact_err x
      · subst hx1
        rw [show roundTrip PcmFormat.s32Be 1 = none from by decide] at hy
        exact Option.noConfusion hy
    | s24Le =>
      rw [roundTrip_s24Le_eq x h1 h2] at hy
      obtain rfl := Option.some.inj hy
      simpa only [roundTripBound] using e24
    | s24Be =>
      rw [roundTrip_s24Be_eq x h1 h2] at hy
      obtain rfl := Option.some.inj hy
      simpa only [roundTripBound] using e24
    | s24_3Le =>
      rcases lt_or_eq_of_le h2 with hx1 | hx1
      · rw [roundTrip_s24_3Le_eq x h1 hx1] at hy
        obtain rfl := Option.some.inj hy
        simpa only [roundTripBound] using trunc_scale_err_packed x
      · subst hx1
        rw [show roundTrip PcmFormat.s24_3Le 1 = none from by decide] at hy
        exact Option.noConfusion hy
    | s24_3Be =>
      rcases lt_or_eq_of_le h2 with hx1 | hx1
      · rw [roundTrip_s24_3Be_eq x h1 hx1] at hy
        obtain rfl := Option.some.inj hy
        simpa only [roundTripBound] using trunc_scale_err_packed x
      · subst hx1
        rw [show roundTrip PcmFormat.s24_3Be 1 = none from by decide] at hy
        exact Option.noConfusion hy
  · intro hx1
    cases F with
    | floatLe => simp [roundTrip]
    | floatBe => simp [roundTrip]
    | s16Le => simp [roundTrip]
    | s16Be => simp [roundTrip]
    | s32Le => rw [roundTrip_s32Le_eq x h1 hx1]; simp
    | s32Be => rw [roundTrip_s32Be_eq x h1 hx1]; simp
    | s24Le => simp [roundTrip]
    | s24Be => simp [roundTrip]
    | s24_3Le => rw [roundTrip_s24_3Le_eq x h1 hx1]; simp
    | s24_3Be => rw [roundTrip_s24_3Be_eq x h1 hx1]; simp

/-- Witness for C2 (amended) at the S16 LE format and `x = 7/10`:
the round trip is defined, yields `2867/4096`, and meets the amended
bound. -/
theorem codec_round_trip_amended_witness :
    (-1 : ℚ) ≤ 7 / 10 ∧ (7 / 10 : ℚ) ≤ 1 ∧
      roundTrip .s16Le (7 / 10) = some (2867 / 4096) ∧
      |(2867 / 4096 : ℚ) - 7 / 10| < roundTripBound .s16Le ∧
      (7 / 10 : ℚ) < 1 ∧ (roundTrip .s16Le (7 / 10)).isSome :=
  ⟨by norm_num, by norm_num, by decide,
    (codec_round_trip_amended .s16Le (7 / 10) (by norm_num)
      (by norm_num)).1 (2867 / 4096) (by decide),
    by norm_num,
    (codec_round_trip_amended .s16Le (7 / 10) (by norm_num)
      (by norm_num)).2 (by norm_num)⟩

end PiPedal
